import Mathlib

/-!
Verification of the container-pool / container-tool core of the repository.

The Python sources are shallowly embedded:
* `experiment/container_pool.py` — `ContainerPool.__init__` core allocation and
  the acquire/release queue discipline (modelled as a labelled transition system).
* `tool/container_tool.py` — the coverage state (`avg_cov_runtime`,
  `total_cov_executions`), `update_runtime`, `get_coverage`, `patch_compile_script`
  (with a character-list model of Python `str.replace`), `execute` together with
  `_execute_command_in_container`, `fuzz` and `_libfuzzer_args`, and the
  image-name handling in `_check_chronos_build_success` / `_get_project_name`.

Host subprocess behaviour (whether `sp.run`/`sp.Popen` completes, times out, or
cannot start, and whether opening a log file succeeds) is an input of the
embedded functions, chosen by the environment; Python exceptions are modelled
with `Except`.
-/

namespace OFG

/-- Embedding of `subprocess.CompletedProcess` as used by the tool: the
`args` field (a string after `execute` rewrites it), the return code, and the
captured output streams. -/
structure CompletedProcess where
  args : String
  returncode : Int
  stdout : String
  stderr : String
deriving DecidableEq, Repr

/-- Python exceptions that the embedded code can raise or catch. -/
inductive PyExc where
  | timeoutExpired
  | calledProcessError (rc : Int) (out err : String)
  | osError (msg : String)
  | ioError (msg : String)
deriving DecidableEq, Repr

/-! ### ContainerPool core allocation (container_pool.py line 28) -/

/-- `ContainerPool.SYSTEM_CORES` (container_pool.py line 22). -/
def SYSTEM_CORES : ℕ := 24

/-- Embedding of `max(1, int(system_cores) / pool_size)` from
`ContainerPool.__init__` (container_pool.py line 28).  Python 3 `/` is true
division producing a float; floats arising from this expression are modelled
exactly by rationals. -/
def cores_per_container (system_cores pool_size : ℕ) : ℚ :=
  max 1 ((system_cores : ℚ) / (pool_size : ℚ))

/-- The per-sandbox core formula as the spec words it:
`coresPerSandbox = max(1, T // C)` with floor (integer) division.  This
definition follows the spec, not the source, and is compared with
`cores_per_container`. -/
def coresPerSandboxSpec (total capacity : ℕ) : ℚ :=
  max 1 ((total / capacity : ℕ) : ℚ)

/-! ### Coverage runtime state (container_tool.py lines 77-78, 356-410) -/

/-- The sandbox's adaptive-timeout tracker: `self.avg_cov_runtime` and
`self.total_cov_executions` (container_tool.py lines 77-78). -/
structure CovState where
  avg_cov_runtime : ℚ
  total_cov_executions : ℕ
deriving DecidableEq, Repr

/-- State set in `ProjectContainerTool.__init__`: average `-1`, count `0`. -/
def initCovState : CovState := ⟨-1, 0⟩

/-- Embedding of `ProjectContainerTool.update_runtime`
(container_tool.py lines 356-362): increment the count, reset a negative
average to the new sample, then apply the incremental-mean step. -/
def update_runtime (s : CovState) (runtime : ℚ) : CovState :=
  let n : ℕ := s.total_cov_executions + 1
  let a : ℚ := if s.avg_cov_runtime < 0 then runtime else s.avg_cov_runtime
  { avg_cov_runtime := a + (runtime - a) / (n : ℚ), total_cov_executions := n }

/-- Embedding of the timeout computation in `get_coverage`
(container_tool.py line 384):
`self.avg_cov_runtime + 2 if self.avg_cov_runtime > 0 else 30`. -/
def timeout_threshold (s : CovState) : ℚ :=
  if s.avg_cov_runtime > 0 then s.avg_cov_runtime + 2 else 30

/-- The command list built by `get_coverage` (container_tool.py lines 370-382). -/
def coverage_command (corpus_dir target_name gen_name : String) : List String :=
  ["python3", "infra/helper.py", "coverage", "--corpus-dir", corpus_dir,
   "--fuzz-target", target_name, "--port", "", "--no-serve", gen_name]

/-- Environment-chosen outcome of the `sp.run(..., check=True, timeout=...)`
call inside `get_coverage`: the subprocess completes after `runtime` seconds
with a return code, hits the timeout, or cannot start at all. -/
inductive SpRunOutcome where
  | completed (runtime : ℚ) (returncode : Int) (out err : String)
  | timedOut
  | startFailure (msg : String)
deriving DecidableEq, Repr

/-- `sp.run` with `check=True`: a completed process with non-zero exit raises
`CalledProcessError`, a timeout raises `TimeoutExpired`, a start failure
raises `OSError`; otherwise the completed process (and its wall-clock
duration) is returned. -/
def sp_run_checked (cmd : List String) (o : SpRunOutcome) :
    Except PyExc (ℚ × CompletedProcess) :=
  match o with
  | .completed rt rc out err =>
      if rc ≠ 0 then .error (.calledProcessError rc out err)
      else .ok (rt, ⟨String.intercalate " " cmd, rc, out, err⟩)
  | .timedOut => .error .timeoutExpired
  | .startFailure m => .error (.osError m)

/-- What one `get_coverage` call produces: the updated tracker state, the
value returned to the caller (the Python function body has no `return`
statement, which the embedding makes explicit as an `Option`), the
empty-corpus warning flag, and the timeout passed to the subprocess. -/
structure CovCallResult where
  state : CovState
  retval : Option CompletedProcess
  warnedEmptyCorpus : Bool
  timeoutUsed : ℚ
deriving DecidableEq, Repr

/-- Embedding of `ProjectContainerTool.get_coverage`
(container_tool.py lines 364-410): warn (only) on an empty corpus, run the
coverage subprocess under `timeout_threshold`, record the duration via
`update_runtime` on success, and catch exactly `TimeoutExpired` and
`CalledProcessError`, turning them into log entries.  Every path falls off
the end of the function, so the caller receives `none`. -/
def get_coverage (s : CovState) (corpus : List String)
    (corpus_dir target_name gen_name : String) (o : SpRunOutcome) :
    Except PyExc CovCallResult :=
  let warned := corpus.isEmpty
  let t := timeout_threshold s
  match sp_run_checked (coverage_command corpus_dir target_name gen_name) o with
  | .ok (rt, _proc) => .ok ⟨update_runtime s rt, none, warned, t⟩
  | .error .timeoutExpired => .ok ⟨s, none, warned, t⟩
  | .error (.calledProcessError _ _ _) => .ok ⟨s, none, warned, t⟩
  | .error e => .error e

/-! ### patch_compile_script (container_tool.py lines 108-121) -/

/-- Fuel-indexed model of Python `str.replace` on character lists: scan left
to right; at a position where the (non-empty) pattern matches, emit the
replacement and skip past the match; otherwise keep the character.  The fuel
is always instantiated with the length of the scanned list, which suffices
because every step consumes at least one character. -/
def pyReplaceAux (pat rep : List Char) : ℕ → List Char → List Char
  | 0, l => l
  | _ + 1, [] => []
  | fuel + 1, c :: cs =>
    if pat.isPrefixOf (c :: cs) ∧ pat ≠ [] then
      rep ++ pyReplaceAux pat rep fuel (cs.drop (pat.length - 1))
    else
      c :: pyReplaceAux pat rep fuel cs

/-- Python `s.replace(pat, rep)` for a non-empty pattern. -/
def pyReplace (pat rep l : List Char) : List Char :=
  pyReplaceAux pat rep l.length l

/-- `original_cmd` from `patch_compile_script` (container_tool.py line 117). -/
def original_cmd : String :=
  "COPY_SOURCES_CMD=\"cp -rL --parents $SRC $WORK /usr/include /usr/local/include $GOPATH $OSSFUZZ_RUSTPATH /rustc $OUT\""

/-- `new_cmd` from `patch_compile_script` (container_tool.py line 118). -/
def new_cmd : String :=
  "COPY_SOURCES_CMD=\"cp -rL --parents $WORK /usr/include /usr/local/include $GOPATH $OSSFUZZ_RUSTPATH /rustc $OUT\""

/-- The text the two commands share up to the removed source-tree term. -/
def copy_cmd_head : String := "COPY_SOURCES_CMD=\"cp -rL --parents "

/-- The source-tree term that the patch removes. -/
def src_term : String := "$SRC "

/-- The text the two commands share after the removed source-tree term. -/
def copy_cmd_tail : String :=
  "$WORK /usr/include /usr/local/include $GOPATH $OSSFUZZ_RUSTPATH /rustc $OUT\""

/-- Embedding of the transformation applied by
`ProjectContainerTool.patch_compile_script` (container_tool.py line 119):
`compile_contents.replace(original_cmd, new_cmd)`. -/
def patch_compile_script (compile_contents : String) : String :=
  ⟨pyReplace original_cmd.data new_cmd.data compile_contents.data⟩

/-! ### execute / _execute_command_in_container (container_tool.py lines 144-184, 271-288) -/

/-- Environment-chosen outcome of the `sp.run` call inside
`_execute_command_in_container`: either it returns a completed process, or it
raises (any exception, e.g. a process that cannot start). -/
inductive RunAttempt where
  | completes (rc : Int) (out err : String)
  | raises (msg : String)
deriving DecidableEq, Repr

/-- Embedding of `ProjectContainerTool._execute_command_in_container`
(container_tool.py lines 144-184).  When a log path is given, the log file is
opened *before* the `try` block, so a failing `open` (modelled by
`openOk = false`) propagates as an exception; any exception raised by
`sp.run` itself is caught and converted into
`CompletedProcess(command, returncode=1, stdout="", stderr="")`. -/
def execute_command_in_container (openOk : Bool) (att : RunAttempt)
    (command : List String) (log_path : Option String) :
    Except PyExc CompletedProcess :=
  let body : Except PyExc CompletedProcess :=
    match att with
    | .completes rc out err => .ok ⟨String.intercalate " " command, rc, out, err⟩
    | .raises _ => .ok ⟨String.intercalate " " command, 1, "", ""⟩
  match log_path with
  | some p => if openOk then body else .error (.ioError ("could not open " ++ p))
  | none => body

/-- The `docker exec` command list built by `execute`
(container_tool.py lines 276-283). -/
def docker_exec_command (container_id command : String) : List String :=
  ["docker", "exec", container_id, "/bin/bash", "-c", command]

/-- Embedding of `ProjectContainerTool.execute`
(container_tool.py lines 271-288): run the `docker exec` command through
`_execute_command_in_container` and overwrite the result's `args` with the
original command string. -/
def execute (openOk : Bool) (att : RunAttempt) (container_id command : String)
    (log_path : Option String) : Except PyExc CompletedProcess :=
  match execute_command_in_container openOk att
      (docker_exec_command container_id command) log_path with
  | .ok p => .ok { p with args := command }
  | .error e => .error e

/-! ### fuzz / _libfuzzer_args (container_tool.py lines 316-354, 440-450) -/

/-- Embedding of `_libfuzzer_args` (container_tool.py lines 440-450). -/
def libfuzzer_args (run_timeout : ℕ) : List String :=
  ["-print_final_stats=1",
   "-max_total_time=" ++ toString run_timeout,
   "-len_control=0",
   "-timeout=30",
   "-detect_leaks=0"]

/-- The `run_fuzzer` command list built by `fuzz`
(container_tool.py lines 319-330). -/
def fuzz_command (gen_name target_name corpus_dir : String) (run_timeout : ℕ) :
    List String :=
  ["python3", "infra/helper.py", "run_fuzzer", "-e",
   "ASAN_OPTIONS=detect_leaks=0", "--corpus-dir", corpus_dir, gen_name,
   target_name, "--"] ++ libfuzzer_args run_timeout

/-- The deadline `fuzz` passes to `proc.wait` (container_tool.py line 341). -/
def fuzz_wait_deadline (run_timeout : ℕ) : ℕ := run_timeout + 5

/-- Environment-chosen outcome of the `sp.Popen` call inside `fuzz`: the
driver starts and (eventually) exits with a return code after
`driver_runtime` seconds, or it cannot be started at all. -/
inductive PopenOutcome where
  | started (driver_runtime : ℕ) (rc : Int)
  | failedToStart (msg : String)
deriving DecidableEq, Repr

/-- Log events emitted by `fuzz` (container_tool.py lines 343, 346-353). -/
inductive FuzzLog where
  | softTimeout
  | nonzeroExit
  | success
deriving DecidableEq, Repr

/-- Embedding of `ProjectContainerTool.fuzz`
(container_tool.py lines 316-354): open the log file, start the driver, wait
with deadline `fuzz_wait_deadline run_timeout`; a `TimeoutExpired` from the
wait is caught and logged (and since `proc.returncode` is then still `None`,
the non-zero-exit branch is also logged); otherwise the exit code is
inspected and logged.  The function returns `None` (here `.ok` with the list
of log events) without raising in all those cases. -/
def fuzz (openOk : Bool) (run_timeout : ℕ) (po : PopenOutcome) :
    Except PyExc (List FuzzLog) :=
  if openOk then
    match po with
    | .started driver_runtime rc =>
        if fuzz_wait_deadline run_timeout < driver_runtime then
          .ok [.softTimeout, .nonzeroExit]
        else if rc ≠ 0 then .ok [.nonzeroExit]
        else .ok [.success]
    | .failedToStart m => .error (.osError m)
  else .error (.ioError "could not open log file")

/-! ### ContainerPool acquire/release (container_pool.py lines 24-41) -/

/-- The pool state: the FIFO queue of pair identifiers still held by the pool
(front of the list is handed out next, `put` appends at the back, matching
`multiprocessing.Manager().Queue()`), and the pairs currently checked out,
tagged with the caller holding each. -/
structure PoolState where
  queue : List ℕ
  held : List (ℕ × ℕ)
deriving DecidableEq, Repr

/-- The pool right after `ContainerPool.__init__` with capacity `C`: `C`
distinct pairs in the queue, nothing checked out. -/
def initPool (C : ℕ) : PoolState := ⟨List.range C, []⟩

/-- Events on the pool: `get_container_pair` and `release_container_pair`
performed by a given caller on a given pair. -/
inductive PoolEvent where
  | acquire (caller pair : ℕ)
  | release (caller pair : ℕ)
deriving DecidableEq, Repr

/-- Labelled transitions of the pool under the caller discipline of the
claim: `acquire` (a blocking `Queue.get`) fires only when the queue is
non-empty and the caller holds nothing — each caller releases each acquired
pair before reacquiring; `release` (`Queue.put`) returns a held pair to the
back of the queue. -/
inductive PoolStep : PoolState → PoolEvent → PoolState → Prop
  | acquire {s : PoolState} {c p : ℕ} {rest : List ℕ}
      (hq : s.queue = p :: rest) (hc : ∀ q, (c, q) ∉ s.held) :
      PoolStep s (.acquire c p) ⟨rest, (c, p) :: s.held⟩
  | release {s : PoolState} {c p : ℕ} (hm : (c, p) ∈ s.held) :
      PoolStep s (.release c p) ⟨s.queue ++ [p], s.held.erase (c, p)⟩

/-- States reachable from the freshly initialized pool by acquire/release
sequences respecting the discipline. -/
inductive PoolReachable (C : ℕ) : PoolState → Prop
  | init : PoolReachable C (initPool C)
  | step {s s' : PoolState} {e : PoolEvent} :
      PoolReachable C s → PoolStep s e s' → PoolReachable C s'

/-! ### Image names and the cache tag (container_tool.py lines 93-101) -/

/-- The substring tested by `_check_chronos_build_success`
(container_tool.py line 94). -/
def cacheMarker : List Char := "ofg-cached".data

/-- The literal part of the regex `-ofg-cached-.*$` used by
`_get_project_name` (container_tool.py line 101). -/
def cacheTag : List Char := "-ofg-cached-".data

/-- Embedding of `os.path.basename`: the characters after the last `/`. -/
def basename (l : List Char) : List Char :=
  (l.reverse.takeWhile (fun c => c ≠ '/')).reverse

/-- Embedding of `re.sub(r"-ofg-cached-.*$", "", s)`: the regex matches from
the first occurrence of the literal `-ofg-cached-` to the end of the string,
so the substitution truncates the string at that occurrence (and is the
identity when the literal does not occur). -/
def stripCacheTag : List Char → List Char
  | [] => []
  | c :: cs => if cacheTag.isPrefixOf (c :: cs) then [] else c :: stripCacheTag cs

/-- Embedding of `ProjectContainerTool._check_chronos_build_success`
(container_tool.py lines 93-97): `"ofg-cached" in self.image_name`. -/
def check_chronos_build_success (image_name : String) : Bool :=
  decide (cacheMarker <:+: image_name.data)

/-- Embedding of `ProjectContainerTool._get_project_name`
(container_tool.py lines 99-101):
`re.sub(r"-ofg-cached-.*$", "", os.path.basename(self.image_name))`. -/
def get_project_name (image_name : String) : String :=
  ⟨stripCacheTag (basename image_name.data)⟩

/-- The multiset of pair identifiers in circulation: those still queued in the
pool plus those currently checked out. -/
def circulation (s : PoolState) : Multiset ℕ :=
  (s.queue : Multiset ℕ) + ((s.held.map Prod.snd : List ℕ) : Multiset ℕ)

/-! ## Helper lemmas -/

/-- One `get_coverage` call, by cases on the subprocess outcome. -/
theorem get_coverage_cases (s : CovState) (corpus : List String)
    (d t g : String) (o : SpRunOutcome) :
    get_coverage s corpus d t g o =
      match o with
      | .completed rt rc _ _ =>
          if rc = 0 then
            .ok ⟨update_runtime s rt, none, corpus.isEmpty, timeout_threshold s⟩
          else .ok ⟨s, none, corpus.isEmpty, timeout_threshold s⟩
      | .timedOut => .ok ⟨s, none, corpus.isEmpty, timeout_threshold s⟩
      | .startFailure m => .error (.osError m) := by
  cases o with
  | completed rt rc out err =>
      by_cases hrc : rc = 0
      · simp [get_coverage, sp_run_checked, hrc]
      · simp [get_coverage, sp_run_checked, hrc]
  | timedOut => simp [get_coverage, sp_run_checked]
  | startFailure m => simp [get_coverage, sp_run_checked]

/-- Incremental-mean invariant of `update_runtime`, starting from any state
with a non-negative average and a positive count. -/
theorem foldl_update_runtime_mean (l : List ℚ) :
    ∀ (a : ℚ) (n : ℕ), 0 < n → 0 ≤ a → (∀ x ∈ l, 0 ≤ x) →
      (l.foldl update_runtime ⟨a, n⟩).avg_cov_runtime
          = (a * (n : ℚ) + l.sum) / ((n : ℚ) + (l.length : ℚ)) ∧
      (l.foldl update_runtime ⟨a, n⟩).total_cov_executions = n + l.length := by
  induction l with
  | nil =>
      intro a n hn ha _
      have hnQ : ((n : ℚ)) ≠ 0 := by positivity
      constructor
      · simp only [List.foldl_nil, List.sum_nil, List.length_nil]
        push_cast
        field_simp
      · simp
  | cons r t ih =>
      intro a n hn ha hx
      have hr : (0 : ℚ) ≤ r := hx r (by simp)
      have ht : ∀ x ∈ t, (0 : ℚ) ≤ x := fun x hxt => hx x (by simp [hxt])
      have hn1 : ((n : ℚ) + 1) ≠ 0 := by positivity
      have hstep : update_runtime ⟨a, n⟩ r
          = ⟨(a * (n : ℚ) + r) / ((n : ℚ) + 1), n + 1⟩ := by
        simp only [update_runtime, not_lt.mpr ha, if_neg, CovState.mk.injEq, and_true]
        push_cast
        field_simp
        ring
      have ha' : (0 : ℚ) ≤ (a * (n : ℚ) + r) / ((n : ℚ) + 1) := by positivity
      have hrec := ih ((a * (n : ℚ) + r) / ((n : ℚ) + 1)) (n + 1)
        (Nat.succ_pos n) ha' ht
      have hx2 : (a * (n : ℚ) + r) / ((n : ℚ) + 1) * ((n : ℚ) + 1) = a * (n : ℚ) + r :=
        div_mul_cancel₀ _ hn1
      constructor
      · rw [List.foldl_cons, hstep, hrec.1]
        simp only [List.sum_cons, List.length_cons]
        push_cast
        rw [hx2]
        ring_nf
      · rw [List.foldl_cons, hstep, hrec.2]
        simp only [List.length_cons]
        omega

/-- The adaptive tracker computes the arithmetic mean of all samples fed to
it from the initial sentinel state. -/
theorem foldl_update_runtime_mean_init (l : List ℚ) (hne : l ≠ [])
    (hl : ∀ x ∈ l, 0 ≤ x) :
    (l.foldl update_runtime initCovState).avg_cov_runtime
        = l.sum / (l.length : ℚ) ∧
    (l.foldl update_runtime initCovState).total_cov_executions = l.length := by
  cases l with
  | nil => exact absurd rfl hne
  | cons r t =>
      have hr : (0 : ℚ) ≤ r := hl r (by simp)
      have ht : ∀ x ∈ t, (0 : ℚ) ≤ x := fun x hxt => hl x (by simp [hxt])
      have hfirst : update_runtime initCovState r = ⟨r, 1⟩ := by
        simp [update_runtime, initCovState]
      have hrec := foldl_update_runtime_mean t r 1 Nat.one_pos hr ht
      constructor
      · rw [List.foldl_cons, hfirst, hrec.1]
        simp only [List.sum_cons, List.length_cons]
        push_cast
        ring_nf
      · rw [List.foldl_cons, hfirst, hrec.2]
        simp only [List.length_cons]
        omega

/-! ## Claim theorems -/

/-- Claim C1 counterexample: at capacity 5 (with the fixed total of 24 cores)
the code's per-sandbox core value differs from the spec's floor-division
formula, and is in fact the fractional value 24/5 (denominator 5). -/
theorem C1_counterexample :
    cores_per_container SYSTEM_CORES 5 ≠ coresPerSandboxSpec SYSTEM_CORES 5 ∧
    ¬ ∃ z : ℤ, cores_per_container SYSTEM_CORES 5 = (z : ℚ) := by
  have h1 : cores_per_container SYSTEM_CORES 5 = 24 / 5 := by
    unfold cores_per_container SYSTEM_CORES
    rw [max_eq_right (by norm_num)]
    norm_num
  have h2 : coresPerSandboxSpec SYSTEM_CORES 5 = 4 := by
    unfold coresPerSandboxSpec SYSTEM_CORES
    norm_num
  constructor
  · rw [h1, h2]
    norm_num
  · rintro ⟨z, hz⟩
    rw [h1] at hz
    have h4 : (4 : ℚ) < (z : ℚ) := by rw [← hz]; norm_num
    have h5 : (z : ℚ) < 5 := by rw [← hz]; norm_num
    have h4n : (4 : ℤ) < z := by exact_mod_cast h4
    have h5n : z < 5 := by exact_mod_cast h5
    omega

/-- Claim C1 (amended): the per-sandbox allocation computed at pool
initialization is `max(1, T / C)` with exact (true, possibly fractional)
division; it coincides with the spec's floor formula `max(1, T // C)` exactly
when `C` divides `T` or `C` exceeds `T`. -/
theorem C1_amended_exact_division (T C : ℕ) (hC : 1 ≤ C) :
    cores_per_container T C = max 1 ((T : ℚ) / (C : ℚ)) ∧
    (cores_per_container T C = coresPerSandboxSpec T C ↔ (C ∣ T ∨ T < C)) := by
  have hC0 : 0 < C := hC
  have hCQ : (0 : ℚ) < (C : ℚ) := by exact_mod_cast hC0
  refine ⟨rfl, ?_⟩
  by_cases hTC : T < C
  · have h1 : (T : ℚ) / (C : ℚ) < 1 := (div_lt_one hCQ).mpr (by exact_mod_cast hTC)
    have h2 : T / C = 0 := Nat.div_eq_of_lt hTC
    constructor
    · intro _; exact Or.inr hTC
    · intro _
      unfold cores_per_container coresPerSandboxSpec
      rw [h2, max_eq_left h1.le]
      norm_num
  · have hCT : C ≤ T := le_of_not_lt hTC
    have h1 : (1 : ℚ) ≤ (T : ℚ) / (C : ℚ) := (one_le_div hCQ).mpr (by exact_mod_cast hCT)
    have h2 : 1 ≤ T / C := (Nat.one_le_div_iff hC0).mpr hCT
    have hL : cores_per_container T C = (T : ℚ) / (C : ℚ) := max_eq_right h1
    have hR : coresPerSandboxSpec T C = ((T / C : ℕ) : ℚ) :=
      max_eq_right (by exact_mod_cast h2)
    rw [hL, hR]
    constructor
    · intro heq
      left
      have hTm : (T : ℚ) = ((T / C : ℕ) : ℚ) * (C : ℚ) := by
        rw [← heq]
        exact (div_mul_cancel₀ _ hCQ.ne').symm
      have hTn : T = (T / C) * C := by exact_mod_cast hTm
      exact ⟨T / C, by rw [Nat.mul_comm]; exact hTn⟩
    · rintro (hdvd | hlt)
      · exact (Nat.cast_div hdvd (Nat.cast_ne_zero.mpr hC0.ne')).symm
      · exact absurd hlt hTC

/-- Claim C1 witness: the amended statement instantiated at 24 cores and
capacity 5. -/
theorem C1_witness :
    cores_per_container 24 5 = max 1 ((24 : ℚ) / (5 : ℚ)) ∧
    (cores_per_container 24 5 = coresPerSandboxSpec 24 5 ↔ (5 ∣ 24 ∨ 24 < 5)) :=
  C1_amended_exact_division 24 5 (by norm_num)

/-- Claim C2 (code bug): `get_coverage` converts a coverage timeout and a
non-zero exit of the coverage subprocess into a normal return — no exception
reaches the caller — but, contrary to the claim and to the function's own
`-> sp.CompletedProcess` annotation, every normal return carries no value
(`None`): the function body has no `return` statement. -/
theorem C2_get_coverage_fault_is_logged_but_returns_none (s : CovState)
    (corpus : List String) (d t g : String) (o : SpRunOutcome) :
    (∀ res, get_coverage s corpus d t g o = .ok res → res.retval = none) ∧
    ((o = .timedOut ∨ ∃ rt rc out err, o = .completed rt rc out err ∧ rc ≠ 0) →
      ∃ res, get_coverage s corpus d t g o = .ok res) := by
  rw [get_coverage_cases]
  constructor
  · intro res h
    cases o with
    | completed rt rc out err =>
        by_cases hrc : rc = 0 <;> simp [hrc] at h <;> simp [← h]
    | timedOut =>
        simp at h
        simp [← h]
    | startFailure m => simp at h
  · rintro (rfl | ⟨rt, rc, out, err, rfl, hrc⟩)
    · exact ⟨_, rfl⟩
    · simp [hrc]

/-- Claim C2 witness: a timed-out coverage run returns normally with no
value. -/
theorem C2_witness :
    ∃ res, get_coverage initCovState [] "corpus" "target" "gen"
        SpRunOutcome.timedOut = .ok res ∧ res.retval = none := by
  have h := C2_get_coverage_fault_is_logged_but_returns_none initCovState []
    "corpus" "target" "gen" SpRunOutcome.timedOut
  obtain ⟨res, hres⟩ := h.2 (Or.inl rfl)
  exact ⟨res, hres, h.1 res hres⟩

/-- Claim C3 counterexample: after one successful coverage sample of duration
0 the run count is 1 (so "at least one prior successful sample exists"), yet
the code's timeout is 30 — not `average + 2 = 2` — because the code branches
on `avg_cov_runtime > 0`, not on the run count. -/
theorem C3_counterexample :
    (update_runtime initCovState 0).total_cov_executions = 1 ∧
    timeout_threshold (update_runtime initCovState 0) = 30 ∧
    timeout_threshold (update_runtime initCovState 0) ≠
      (update_runtime initCovState 0).avg_cov_runtime + 2 := by
  refine ⟨rfl, ?_, ?_⟩
  · simp [update_runtime, initCovState, timeout_threshold]
  · simp [update_runtime, initCovState, timeout_threshold]

/-- Claim C3 (amended): the timeout passed to the coverage subprocess is
exactly the stored average plus 2 whenever that average is strictly positive
— in particular after any non-empty sequence of successful samples of
positive duration — and exactly 30 otherwise (in particular when the
coverage-run count is 0). -/
theorem C3_amended_timeout_budget (samples : List ℚ) (s : CovState)
    (corpus : List String) (d t g : String) (o : SpRunOutcome)
    (hne : samples ≠ []) (hpos : ∀ x ∈ samples, 0 < x) :
    timeout_threshold initCovState = 30 ∧
    timeout_threshold (samples.foldl update_runtime initCovState) =
      (samples.foldl update_runtime initCovState).avg_cov_runtime + 2 ∧
    (∀ res, get_coverage s corpus d t g o = .ok res →
      res.timeoutUsed = timeout_threshold s) := by
  refine ⟨by simp [timeout_threshold, initCovState], ?_, ?_⟩
  · have h0 : ∀ x ∈ samples, (0 : ℚ) ≤ x := fun x hx => (hpos x hx).le
    have hmean := (foldl_update_runtime_mean_init samples hne h0).1
    have hsum : (0 : ℚ) < samples.sum := List.sum_pos samples hpos hne
    have hlen : (0 : ℚ) < (samples.length : ℚ) := by
      have : samples.length ≠ 0 := fun hc => hne (List.length_eq_zero.mp hc)
      positivity
    have havg : 0 < (samples.foldl update_runtime initCovState).avg_cov_runtime := by
      rw [hmean]
      positivity
    simp [timeout_threshold, havg]
  · intro res h
    rw [get_coverage_cases] at h
    cases o with
    | completed rt rc out err =>
        by_cases hrc : rc = 0 <;> simp [hrc] at h <;> simp [← h]
    | timedOut =>
        simp at h
        simp [← h]
    | startFailure m => simp at h

/-- Claim C3 witness: the amended statement at the sample sequence `[10]`
and a timed-out follow-up call. -/
theorem C3_witness :
    timeout_threshold (([10] : List ℚ).foldl update_runtime initCovState) =
      (([10] : List ℚ).foldl update_runtime initCovState).avg_cov_runtime + 2 :=
  (C3_amended_timeout_budget [10] initCovState [] "c" "t" "g"
    SpRunOutcome.timedOut (by simp) (by norm_num)).2.1

/-- Claim C4 (confirmed): feeding any non-empty sequence of non-negative
successful durations to the tracker from its initial sentinel state yields
exactly the arithmetic mean (and the count of samples); the concrete
sequence 10, 20, 30 passes through averages 10, 15, 20. -/
theorem C4_adaptive_average_is_mean (samples : List ℚ)
    (h0 : ∀ x ∈ samples, 0 ≤ x) (hne : samples ≠ []) :
    (samples.foldl update_runtime initCovState).avg_cov_runtime =
      samples.sum / (samples.length : ℚ) ∧
    (samples.foldl update_runtime initCovState).total_cov_executions =
      samples.length ∧
    (update_runtime initCovState 10).avg_cov_runtime = 10 ∧
    (update_runtime (update_runtime initCovState 10) 20).avg_cov_runtime = 15 ∧
    (update_runtime (update_runtime (update_runtime initCovState 10) 20)
        30).avg_cov_runtime = 20 := by
  refine ⟨(foldl_update_runtime_mean_init samples hne h0).1,
    (foldl_update_runtime_mean_init samples hne h0).2, ?_, ?_, ?_⟩
  · simp [update_runtime, initCovState]
  · simp [update_runtime, initCovState]
    norm_num
  · simp [update_runtime, initCovState]
    norm_num

/-- Claim C4 witness: the durations 10, 20, 30 average to 20 = 60/3. -/
theorem C4_witness :
    (([10, 20, 30] : List ℚ).foldl update_runtime initCovState).avg_cov_runtime =
      ([10, 20, 30] : List ℚ).sum / (([10, 20, 30] : List ℚ).length : ℚ) :=
  (C4_adaptive_average_is_mean [10, 20, 30] (by norm_num) (by simp)).1

/-- Claim C8 (confirmed): a coverage run that times out or exits non-zero
leaves both the stored average and the run count exactly as they were;
only a successful run updates the tracker (via `update_runtime`). -/
theorem C8_failed_run_preserves_tracker (s : CovState) (corpus : List String)
    (d t g : String) (o : SpRunOutcome)
    (h : o = .timedOut ∨ ∃ rt rc out err, o = .completed rt rc out err ∧ rc ≠ 0) :
    (∀ res, get_coverage s corpus d t g o = .ok res →
      res.state.avg_cov_runtime = s.avg_cov_runtime ∧
      res.state.total_cov_executions = s.total_cov_executions) ∧
    (∀ rt out err res,
      get_coverage s corpus d t g (.completed rt 0 out err) = .ok res →
      res.state = update_runtime s rt) := by
  constructor
  · intro res hres
    rw [get_coverage_cases] at hres
    rcases h with rfl | ⟨rt, rc, out, err, rfl, hrc⟩
    · simp at hres
      simp [← hres]
    · simp [hrc] at hres
      simp [← hres]
  · intro rt out err res hres
    rw [get_coverage_cases] at hres
    simp at hres
    simp [← hres]

/-- Claim C8 witness: a timed-out coverage run leaves the tracker state
`(avg = 7, count = 3)` untouched. -/
theorem C8_witness :
    ∃ res, get_coverage ⟨7, 3⟩ ["seed"] "c" "t" "g" SpRunOutcome.timedOut =
        .ok res ∧
      res.state.avg_cov_runtime = (7 : ℚ) ∧ res.state.total_cov_executions = 3 := by
  have h := C8_failed_run_preserves_tracker ⟨7, 3⟩ ["seed"] "c" "t" "g"
    SpRunOutcome.timedOut (Or.inl rfl)
  have heq : get_coverage ⟨7, 3⟩ ["seed"] "c" "t" "g" SpRunOutcome.timedOut =
      .ok ⟨⟨7, 3⟩, none, false, timeout_threshold ⟨7, 3⟩⟩ := by
    rw [get_coverage_cases]
    rfl
  exact ⟨_, heq, h.1 _ heq⟩

/-- Claim C6 counterexample: `execute` raises when the optional log path
cannot be opened (the `open(log_path, "w+")` happens before the `try`
block), so it does not return a result for *every* command and log path. -/
theorem C6_counterexample :
    execute false (RunAttempt.completes 0 "" "") "cid" "ls"
        (some "/nonexistent/log") =
      .error (.ioError "could not open /nonexistent/log") := by
  rfl

/-- Claim C6 (amended): for every command, `execute` with no log path — or
with a log path that opens successfully — never raises: any failure of the
inner `sp.run` call (including a process that cannot start) is converted into
a synthetic result with exit code 1 and empty stdout/stderr. -/
theorem C6_amended_execute_never_raises (openOk : Bool) (att : RunAttempt)
    (cid cmd : String) (log_path : Option String)
    (h : log_path = none ∨ openOk = true) :
    ∃ p, execute openOk att cid cmd log_path = .ok p ∧
      p.args = cmd ∧
      (∀ m, att = .raises m →
        p.returncode = 1 ∧ p.stdout = "" ∧ p.stderr = "") := by
  rcases h with rfl | rfl
  · cases att with
    | completes rc out err =>
        exact ⟨_, rfl, rfl, fun m hm => by cases hm⟩
    | raises m =>
        exact ⟨_, rfl, rfl, fun m' _ => ⟨rfl, rfl, rfl⟩⟩
  · cases log_path with
    | none =>
        cases att with
        | completes rc out err =>
            exact ⟨_, rfl, rfl, fun m hm => by cases hm⟩
        | raises m =>
            exact ⟨_, rfl, rfl, fun m' _ => ⟨rfl, rfl, rfl⟩⟩
    | some p =>
        cases att with
        | completes rc out err =>
            exact ⟨_, rfl, rfl, fun m hm => by cases hm⟩
        | raises m =>
            exact ⟨_, rfl, rfl, fun m' _ => ⟨rfl, rfl, rfl⟩⟩

/-- Claim C6 witness: a command whose subprocess call raises is converted
into a synthetic failed result. -/
theorem C6_witness :
    ∃ p, execute true (RunAttempt.raises "no such file") "cid" "ls" none =
        .ok p ∧ p.args = "ls" ∧
      (∀ m, RunAttempt.raises "no such file" = RunAttempt.raises m →
        p.returncode = 1 ∧ p.stdout = "" ∧ p.stderr = "") :=
  C6_amended_execute_never_raises true (RunAttempt.raises "no such file")
    "cid" "ls" none (Or.inr rfl)

/-- Claim C7 (confirmed): `fuzz` passes the run timeout to the driver as
`-max_total_time` together with the fixed per-testcase `-timeout=30`, waits
with a deadline of exactly `run_timeout + 5`, and — once the log file is
open and the driver started — returns normally both when the wait deadline
expires (logging a soft timeout) and when the driver exits non-zero
(logging the unsuccessful trial). -/
theorem C7_fuzz_soft_timeout (run_timeout driver_runtime : ℕ) (rc : Int)
    (g t c : String) :
    ("-max_total_time=" ++ toString run_timeout) ∈
      fuzz_command g t c run_timeout ∧
    "-timeout=30" ∈ fuzz_command g t c run_timeout ∧
    fuzz_wait_deadline run_timeout = run_timeout + 5 ∧
    (run_timeout + 5 < driver_runtime →
      fuzz true run_timeout (.started driver_runtime rc) =
        .ok [.softTimeout, .nonzeroExit]) ∧
    (driver_runtime ≤ run_timeout + 5 → rc ≠ 0 →
      fuzz true run_timeout (.started driver_runtime rc) = .ok [.nonzeroExit]) ∧
    (driver_runtime ≤ run_timeout + 5 → rc = 0 →
      fuzz true run_timeout (.started driver_runtime rc) = .ok [.success]) := by
  refine ⟨?_, ?_, rfl, ?_, ?_, ?_⟩
  · simp [fuzz_command, libfuzzer_args]
  · simp [fuzz_command, libfuzzer_args]
  · intro hlt
    simp [fuzz, fuzz_wait_deadline, hlt]
  · intro hle hrc
    simp [fuzz, fuzz_wait_deadline, Nat.not_lt.mpr hle, hrc]
  · intro hle hrc
    simp [fuzz, fuzz_wait_deadline, Nat.not_lt.mpr hle, hrc]

/-- Claim C7 witness: with a 60-second budget and a driver hanging for 66
seconds, the wait deadline (65 s) expires and `fuzz` returns normally with a
soft-timeout log entry. -/
theorem C7_witness :
    fuzz true 60 (PopenOutcome.started 66 0) =
      .ok [FuzzLog.softTimeout, FuzzLog.nonzeroExit] ∧
    ("-max_total_time=" ++ toString 60) ∈ fuzz_command "g" "t" "c" 60 := by
  have h := C7_fuzz_soft_timeout 60 66 0 "g" "t" "c"
  exact ⟨h.2.2.2.1 (by norm_num), h.1⟩

/-- `pyReplaceAux` is the identity on any text in which the pattern does not
occur, whatever the fuel. -/
theorem pyReplaceAux_no_match (pat rep : List Char) :
    ∀ (fuel : ℕ) (l : List Char), ¬ pat <:+: l →
      pyReplaceAux pat rep fuel l = l := by
  intro fuel
  induction fuel with
  | zero => intro l _; rfl
  | succ f ih =>
      intro l hni
      cases l with
      | nil => rfl
      | cons c cs =>
          have hnp : ¬ (pat.isPrefixOf (c :: cs) ∧ pat ≠ []) := by
            rintro ⟨hp, -⟩
            exact hni (List.isPrefixOf_iff_prefix.mp hp).isInfix
          have hcs : ¬ pat <:+: cs := fun hin => hni (List.infix_cons hin)
          simp only [pyReplaceAux]
          rw [if_neg hnp, ih cs hcs]

/-- `pyReplaceAux` on a text that starts with the pattern replaces that
occurrence and, when the pattern occurs nowhere later, leaves the rest. -/
theorem pyReplaceAux_head (pat rep q : List Char) (hpat : pat ≠ [])
    (hq : ¬ pat <:+: q) :
    ∀ fuel : ℕ, 1 ≤ fuel → pyReplaceAux pat rep fuel (pat ++ q) = rep ++ q := by
  intro fuel hfuel
  cases fuel with
  | zero => exact absurd hfuel (by norm_num)
  | succ f =>
      cases pat with
      | nil => exact absurd rfl hpat
      | cons a tp =>
          have hpre : (a :: tp).isPrefixOf ((a :: tp) ++ q) :=
            List.isPrefixOf_iff_prefix.mpr (List.prefix_append _ _)
          show pyReplaceAux (a :: tp) rep (f + 1) (a :: (tp ++ q)) = rep ++ q
          simp only [pyReplaceAux]
          rw [if_pos ⟨hpre, by simp⟩]
          have hdrop : (tp ++ q).drop ((a :: tp).length - 1) = q := by
            simp only [List.length_cons, Nat.add_sub_cancel]
            exact List.drop_left tp q
          rw [hdrop, pyReplaceAux_no_match (a :: tp) rep f q hq]

/-- `pyReplaceAux` on a text with exactly one occurrence of the pattern (at
position `p.length`, with no occurrence starting earlier and none in the
tail) replaces exactly that occurrence. -/
theorem pyReplaceAux_single (pat rep q : List Char) (hpat : pat ≠ [])
    (hq : ¬ pat <:+: q) :
    ∀ (p : List Char) (fuel : ℕ), (p ++ (pat ++ q)).length ≤ fuel →
      (∀ i, i < p.length → ¬ pat <+: ((p ++ (pat ++ q)).drop i)) →
      pyReplaceAux pat rep fuel (p ++ (pat ++ q)) = p ++ (rep ++ q) := by
  intro p
  induction p with
  | nil =>
      intro fuel hfuel _
      have hlen : 1 ≤ (pat ++ q).length := by
        cases pat with
        | nil => exact absurd rfl hpat
        | cons a tp => simp
      have h1 : 1 ≤ fuel := le_trans hlen (by simpa using hfuel)
      simpa using pyReplaceAux_head pat rep q hpat hq fuel h1
  | cons c p' ih =>
      intro fuel hfuel hocc
      cases fuel with
      | zero => simp at hfuel
      | succ f =>
          have h0 : ¬ pat <+: ((c :: p') ++ (pat ++ q)) := by
            have := hocc 0 (by simp)
            simpa using this
          have hnp : ¬ (pat.isPrefixOf (c :: (p' ++ (pat ++ q))) ∧ pat ≠ []) := by
            rintro ⟨hp, -⟩
            exact h0 (by simpa using List.isPrefixOf_iff_prefix.mp hp)
          show pyReplaceAux pat rep (f + 1) (c :: (p' ++ (pat ++ q)))
              = c :: (p' ++ (rep ++ q))
          simp only [pyReplaceAux]
          rw [if_neg hnp]
          congr 1
          apply ih f
          · have : (c :: (p' ++ (pat ++ q))).length ≤ f + 1 := by simpa using hfuel
            simpa using Nat.le_of_succ_le_succ (by simpa using this)
          · intro i hi
            have := hocc (i + 1) (by simpa using Nat.succ_lt_succ hi)
            simpa using this

set_option maxRecDepth 10000 in
/-- Claim C5 (confirmed): the compile-script patch is the literal replacement
of `original_cmd` by `new_cmd`; `new_cmd` is `original_cmd` with exactly the
`$SRC ` term removed, and every other term of the artifact-copy command
(`$WORK`, the include paths, `$GOPATH`, the Rust path, `$OUT`) still occurs
in it; text without the exact original command string is returned unchanged
(hence the patch is idempotent once its output no longer contains the
original); and on a script containing exactly one occurrence of the original
command the patch rewrites exactly that occurrence. -/
theorem C5_patch_is_exact_substring_replacement :
    original_cmd = copy_cmd_head ++ src_term ++ copy_cmd_tail ∧
    new_cmd = copy_cmd_head ++ copy_cmd_tail ∧
    ("$WORK".data <:+: new_cmd.data ∧ "/usr/include".data <:+: new_cmd.data ∧
      "/usr/local/include".data <:+: new_cmd.data ∧
      "$GOPATH".data <:+: new_cmd.data ∧
      "$OSSFUZZ_RUSTPATH".data <:+: new_cmd.data ∧
      "/rustc".data <:+: new_cmd.data ∧ "$OUT".data <:+: new_cmd.data ∧
      ¬ "$SRC".data <:+: new_cmd.data) ∧
    (∀ s : String, ¬ original_cmd.data <:+: s.data →
      patch_compile_script s = s) ∧
    (∀ s : String, ¬ original_cmd.data <:+: (patch_compile_script s).data →
      patch_compile_script (patch_compile_script s) = patch_compile_script s) ∧
    (∀ p q : List Char, ¬ original_cmd.data <:+: q →
      (∀ i, i < p.length →
        ¬ original_cmd.data <+: ((p ++ (original_cmd.data ++ q)).drop i)) →
      patch_compile_script ⟨p ++ (original_cmd.data ++ q)⟩ =
        ⟨p ++ (new_cmd.data ++ q)⟩) := by
  refine ⟨by decide, by decide, by decide, ?_, ?_, ?_⟩
  · intro s hs
    show (⟨pyReplace original_cmd.data new_cmd.data s.data⟩ : String) = s
    unfold pyReplace
    rw [pyReplaceAux_no_match original_cmd.data new_cmd.data _ _ hs]
  · intro s hs
    show (⟨pyReplace original_cmd.data new_cmd.data
        (patch_compile_script s).data⟩ : String) = patch_compile_script s
    unfold pyReplace
    rw [pyReplaceAux_no_match original_cmd.data new_cmd.data _ _ hs]
  · intro p q hq hocc
    unfold patch_compile_script pyReplace
    congr 1
    exact pyReplaceAux_single original_cmd.data new_cmd.data q (by decide)
      hq p _ le_rfl hocc

set_option maxRecDepth 10000 in
/-- Claim C5 witness: the patch applied to a concrete two-line script
rewrites the copy command, and leaves an unrelated script untouched. -/
theorem C5_witness :
    patch_compile_script
        ⟨"#!/bin/bash\n".data ++ (original_cmd.data ++ "\nrest".data)⟩ =
      ⟨"#!/bin/bash\n".data ++ (new_cmd.data ++ "\nrest".data)⟩ ∧
    patch_compile_script "echo hi" = "echo hi" := by
  have h := C5_patch_is_exact_substring_replacement
  exact ⟨h.2.2.2.2.2 _ _ (by decide) (by decide), h.2.2.2.1 "echo hi" (by decide)⟩

/-- Every element of a list of naturals is bounded by its foldr-max. -/
theorem le_foldr_max (l : List ℕ) : ∀ x ∈ l, x ≤ l.foldr max 0 := by
  induction l with
  | nil => simp
  | cons a t ih =>
      intro x hx
      rcases List.mem_cons.mp hx with rfl | hx
      · exact le_max_left _ _
      · exact le_trans (ih x hx) (le_max_right _ _)

/-- For any held-list there is a caller holding nothing in it. -/
theorem exists_fresh_caller (held : List (ℕ × ℕ)) :
    ∃ c : ℕ, ∀ q, (c, q) ∉ held := by
  refine ⟨(held.map Prod.fst).foldr max 0 + 1, fun q hq => ?_⟩
  have hmem : (held.map Prod.fst).foldr max 0 + 1 ∈ held.map Prod.fst :=
    List.mem_map.mpr ⟨((held.map Prod.fst).foldr max 0 + 1, q), hq, rfl⟩
  have := le_foldr_max (held.map Prod.fst) _ hmem
  omega

/-- Reachability invariant of the pool: the multiset of pairs in circulation
is exactly the initial `range C`, and no caller appears twice in the
held-list. -/
theorem pool_inv {C : ℕ} {s : PoolState} (h : PoolReachable C s) :
    circulation s = ((List.range C : List ℕ) : Multiset ℕ) ∧
    (s.held.map Prod.fst).Nodup := by
  induction h with
  | init => simp [circulation, initPool]
  | step hr hstep ih =>
      rcases ih with ⟨hcirc, hnd⟩
      cases hstep with
      | acquire hq hc =>
          constructor
          · unfold circulation at hcirc ⊢
            rw [hq] at hcirc
            simp only [List.map_cons, ← Multiset.cons_coe, Multiset.cons_add,
              Multiset.add_cons] at hcirc ⊢
            exact hcirc
          · simp only [List.map_cons]
            refine List.nodup_cons.mpr ⟨?_, hnd⟩
            intro hmem
            rw [List.mem_map] at hmem
            obtain ⟨pr, hpr, hfst⟩ := hmem
            exact hc pr.2 (by rw [← hfst, Prod.mk.eta]; exact hpr)
      | release hm =>
          obtain ⟨l1, l2, hnm, hsplit, herase⟩ := List.exists_erase_eq hm
          constructor
          · unfold circulation at hcirc ⊢
            rw [hsplit] at hcirc
            show ((_ ++ [_] : List ℕ) : Multiset ℕ) + _ = _
            rw [herase]
            simp only [List.map_append, List.map_cons, ← Multiset.coe_add,
              ← Multiset.cons_coe, Multiset.cons_add, Multiset.add_cons,
              Multiset.coe_nil] at hcirc ⊢
            rw [← hcirc]
            abel
          · rw [hsplit] at hnd
            have hgoal : ((l1 ++ l2).map Prod.fst).Nodup := by
              rw [List.map_append] at hnd ⊢
              rw [List.map_cons] at hnd
              exact List.Nodup.sublist
                ((List.sublist_cons_self _ _).append_left _) hnd
            simpa [herase] using hgoal

/-- Claim C9 (confirmed): in every state reachable by disciplined
acquire/release sequences, pairs held by the pool plus pairs checked out
total exactly the capacity, no pair is held by two callers, only the initial
`C` pairs are ever in circulation, and when the queue is empty no acquire
step is possible until a release re-enables one (on the released pair). -/
theorem C9_pool_checkout_invariant (C : ℕ) (s : PoolState)
    (h : PoolReachable C s) :
    s.queue.length + s.held.length = C ∧
    (s.held.map Prod.snd).Nodup ∧
    (∀ p ∈ s.queue, p < C) ∧
    (∀ pr ∈ s.held, pr.2 < C) ∧
    (s.queue = [] →
      (∀ c p s', ¬ PoolStep s (.acquire c p) s') ∧
      (∀ c p s', PoolStep s (.release c p) s' →
        ∃ c2 s'', PoolStep s' (.acquire c2 p) s'')) := by
  obtain ⟨hcirc, hndfst⟩ := pool_inv h
  have hcard : s.queue.length + s.held.length = C := by
    have := congrArg Multiset.card hcirc
    simpa [circulation, Multiset.coe_card] using this
  have hsub : ((s.held.map Prod.snd : List ℕ) : Multiset ℕ) ≤ circulation s :=
    Multiset.le_add_left _ _
  have hnodup : (s.held.map Prod.snd).Nodup := by
    have hms : Multiset.Nodup ((s.held.map Prod.snd : List ℕ) : Multiset ℕ) :=
      Multiset.nodup_of_le (hcirc ▸ hsub) (by simpa using List.nodup_range C)
    simpa using hms
  have hqmem : ∀ p ∈ s.queue, p < C := by
    intro p hp
    have hmem : p ∈ circulation s := by
      unfold circulation
      exact Multiset.mem_add.mpr (Or.inl (by simpa using hp))
    rw [hcirc] at hmem
    simpa using hmem
  have hhmem : ∀ pr ∈ s.held, pr.2 < C := by
    intro pr hpr
    have hmem : pr.2 ∈ circulation s := by
      unfold circulation
      exact Multiset.mem_add.mpr
        (Or.inr (by simpa using List.mem_map_of_mem Prod.snd hpr))
    rw [hcirc] at hmem
    simpa using hmem
  refine ⟨hcard, hnodup, hqmem, hhmem, fun hq => ⟨?_, ?_⟩⟩
  · intro c p s' hstep
    cases hstep with
    | acquire hq2 hc => rw [hq] at hq2; cases hq2
  · intro c p s' hstep
    cases hstep with
    | release hm =>
        obtain ⟨c2, hc2⟩ := exists_fresh_caller (s.held.erase (c, p))
        refine ⟨c2, _, @PoolStep.acquire _ c2 p [] ?_ hc2⟩
        show s.queue ++ [p] = p :: []
        simp [hq]

/-- Claim C9 witness: capacity 2, one disciplined acquire; the invariant
holds in the resulting state. -/
theorem C9_witness :
    PoolReachable 2 ⟨[1], [(5, 0)]⟩ ∧
    ([1] : List ℕ).length + ([((5 : ℕ), (0 : ℕ))] : List (ℕ × ℕ)).length = 2 := by
  have hr : PoolReachable 2 ⟨[1], [(5, 0)]⟩ := by
    have hstep : PoolStep (initPool 2) (.acquire 5 0) ⟨[1], [(5, 0)]⟩ := by
      have hq : (initPool 2).queue = 0 :: [1] := rfl
      exact PoolStep.acquire hq (by simp [initPool])
    exact PoolReachable.step PoolReachable.init hstep
  exact ⟨hr, (C9_pool_checkout_invariant 2 _ hr).1⟩

/-- `stripCacheTag` splits its input into the kept part and a (possibly
empty) discarded suffix that begins with the cache tag. -/
theorem stripCacheTag_split (l : List Char) :
    ∃ t, l = stripCacheTag l ++ t ∧ (t = [] ∨ cacheTag <+: t) := by
  induction l with
  | nil => exact ⟨[], by simp [stripCacheTag]⟩
  | cons c cs ih =>
      by_cases h : cacheTag.isPrefixOf (c :: cs)
      · refine ⟨c :: cs, ?_, Or.inr (List.isPrefixOf_iff_prefix.mp h)⟩
        simp [stripCacheTag, h]
      · obtain ⟨t, ht1, ht2⟩ := ih
        refine ⟨t, ?_, ht2⟩
        simp only [stripCacheTag, if_neg h]
        rw [List.cons_append, ← ht1]

/-- `stripCacheTag` is the identity when the tag occurs nowhere. -/
theorem stripCacheTag_no_tag (l : List Char) (h : ¬ cacheTag <:+: l) :
    stripCacheTag l = l := by
  induction l with
  | nil => rfl
  | cons c cs ih =>
      have hnp : ¬ (cacheTag.isPrefixOf (c :: cs) = true) := fun hp =>
        h (List.isPrefixOf_iff_prefix.mp hp).isInfix
      have hcs : ¬ cacheTag <:+: cs := fun hin => h (List.infix_cons hin)
      simp only [stripCacheTag, if_neg hnp, ih hcs]

/-- The basename of a character list is a suffix of it. -/
theorem basename_suffix (l : List Char) : basename l <:+ l := by
  have hp : (l.reverse.takeWhile (fun c => c ≠ '/')) <+: l.reverse :=
    List.takeWhile_prefix _
  have hs := hp.reverse
  simpa [basename, List.reverse_reverse] using hs

/-- Claim C10 counterexample: for the image reference `ofg-cached/proj` the
cache marker occurs only in a directory component — not as a trailing
`-ofg-cached-...` suffix — so the sandbox is treated as warm, yet the
generated name (the basename, `proj`) does not contain the marker,
contradicting the claim's final clause. -/
theorem C10_counterexample :
    check_chronos_build_success "ofg-cached/proj" = true ∧
    get_project_name "ofg-cached/proj" = "proj" ∧
    ¬ cacheMarker <:+: (get_project_name "ofg-cached/proj").data := by
  refine ⟨by decide, by decide, by decide⟩

/-- Claim C10 (amended): the sandbox is marked warm exactly when
`ofg-cached` occurs anywhere in the image reference; the generated name is
the reference's basename with precisely a trailing `-ofg-cached-...` suffix
(possibly empty) removed; and whenever the *basename* contains the marker
but no `-ofg-cached-` occurrence, the sandbox is warm while the generated
name still contains the marker.  (The marker may also occur only in a
directory component, in which case the sandbox is warm but the generated
name need not contain the marker.) -/
theorem C10_amended_cache_detection (name : String) :
    (check_chronos_build_success name = true ↔ cacheMarker <:+: name.data) ∧
    (∃ t, basename name.data = (get_project_name name).data ++ t ∧
      (t = [] ∨ cacheTag <+: t)) ∧
    (cacheMarker <:+: basename name.data →
      ¬ cacheTag <:+: basename name.data →
      check_chronos_build_success name = true ∧
      cacheMarker <:+: (get_project_name name).data) := by
  refine ⟨?_, ?_, ?_⟩
  · simp [check_chronos_build_success]
  · obtain ⟨t, ht1, ht2⟩ := stripCacheTag_split (basename name.data)
    exact ⟨t, ht1, ht2⟩
  · intro hmem htag
    have hwarm : cacheMarker <:+: name.data :=
      List.IsInfix.trans hmem (basename_suffix name.data).isInfix
    have hid : (get_project_name name).data = basename name.data :=
      stripCacheTag_no_tag _ htag
    constructor
    · simp [check_chronos_build_success, hwarm]
    · rw [hid]
      exact hmem

/-- Claim C10 witness: for `proj-ofg-cachedx` (marker present in the
basename, but not in `-ofg-cached-` form) the sandbox is warm and the
generated name keeps the marker. -/
theorem C10_witness :
    check_chronos_build_success "proj-ofg-cachedx" = true ∧
    cacheMarker <:+: (get_project_name "proj-ofg-cachedx").data :=
  (C10_amended_cache_detection "proj-ofg-cachedx").2.2 (by decide) (by decide)

end OFG
